import Mathlib

/-!
Shallow embedding of the signal-processing and frequency-sweep core of the
repository (src/modules/signal_processing.py, src/modules/circuit_analysis.py,
src/modules/virtual_lab.py), with theorems settling the frozen claims about it.

Real-valued Python/numpy arithmetic is embedded over ℝ; numpy arrays become
`List ℝ`; a Python function that can raise becomes an `Option`-returning
function (`none` = the call raises); the float value `inf` is a dedicated
constructor.  numpy/scipy library routines used by the source are embedded by
their documented semantics; the one routine whose numerics are not
reproducible here (scipy Butterworth coefficient design) is a parameter of the
embedding.  The global numpy random-number generator is modelled as an
explicit stream `ℕ → ℝ` of standard draws, and the `save_calculation`
database write as an explicit record list in the result.
-/

noncomputable section

open Real

/-- Python `math.radians` / `np.radians`: degrees to radians. -/
def radians (d : ℝ) : ℝ := d * π / 180

/-- Python `math.degrees` / `np.degrees(_, deg=True)`: radians to degrees. -/
def degrees (r : ℝ) : ℝ := r * 180 / π

/-- C `atan2` as exposed by Python `math.atan2(y, x)`: the four-quadrant
arctangent. -/
def atan2 (y x : ℝ) : ℝ :=
  if 0 < x then Real.arctan (y / x)
  else if x < 0 then
    (if 0 ≤ y then Real.arctan (y / x) + π else Real.arctan (y / x) - π)
  else
    (if 0 < y then π / 2 else if y < 0 then -π / 2 else 0)

/-- numpy `np.log10`. -/
def log10 (x : ℝ) : ℝ := Real.logb 10 x

/-- numpy `np.mean` of a 1-d array (`0` on an empty list, where numpy gives
NaN; the sources only branch on comparisons that are false for NaN, matching
`0` there). -/
def mean (l : List ℝ) : ℝ := l.sum / l.length

/-- `np.mean(x**2)`: mean of the squared samples. -/
def meanSq (l : List ℝ) : ℝ := mean (l.map (fun x => x ^ 2))

/-- `np.sqrt(np.mean(x**2))`: root-mean-square of a sample list. -/
def rmsOf (l : List ℝ) : ℝ := Real.sqrt (meanSq l)

/-- numpy `np.std`: population standard deviation. -/
def std (l : List ℝ) : ℝ := Real.sqrt (mean (l.map (fun x => (x - mean l) ^ 2)))

/-- numpy `np.max` on a 1-d array (the sources only apply it to non-empty
arrays; `0` stands in for the empty-array error). -/
def pyMax : List ℝ → ℝ
  | [] => 0
  | h :: t => t.foldl max h

/-- numpy `np.min` on a 1-d array. -/
def pyMin : List ℝ → ℝ
  | [] => 0
  | h :: t => t.foldl min h

/-- Helper for `argmax`: fold that keeps the index of the first strict
maximum seen so far. -/
def argmaxFrom : List ℝ → ℕ → ℕ → ℝ → ℕ
  | [], _, bi, _ => bi
  | v :: rest, i, bi, bv =>
    if bv < v then argmaxFrom rest (i + 1) i v else argmaxFrom rest (i + 1) bi bv

/-- numpy `np.argmax` on a 1-d array: index of the first occurrence of the
maximum.  The sources reach it only on non-empty arrays (`compute_fft` is
`none` otherwise, modelling the ValueError numpy raises on an empty array). -/
def argmax : List ℝ → ℕ
  | [] => 0
  | v :: rest => argmaxFrom rest 1 0 v

/-- numpy `np.linspace(0, stop, num)` with the default `endpoint=True`, as
called at signal_processing.py line 8: `num` evenly spaced samples whose
first is 0 and whose last is `stop`.  For `num = 1` numpy returns `[0]`,
which the formula also yields (`x / 0 = 0` in ℝ). -/
def linspace (stop : ℝ) (num : ℕ) : List ℝ :=
  (List.range num).map (fun i : ℕ => stop * (i : ℝ) / ((num : ℝ) - 1))

/-- numpy `np.logspace(a, b, num)` (base 10). -/
def logspace (a b : ℝ) (num : ℕ) : List ℝ :=
  (List.range num).map (fun i : ℕ => (10 : ℝ) ^ (a + (b - a) * (i : ℝ) / ((num : ℝ) - 1)))

/-- numpy `np.hanning(n)`: the Hann window (`[1]` when `n = 1`). -/
def hanning (n : ℕ) : List ℝ :=
  if n = 1 then [1]
  else (List.range n).map (fun i : ℕ => 1 / 2 - 1 / 2 * Real.cos (2 * π * (i : ℝ) / ((n : ℝ) - 1)))

/-- scipy `scipy.signal.square(theta)` with the default 50% duty cycle:
`+1` on the first half of each 2π period, `-1` on the second. -/
def scipySquare (θ : ℝ) : ℝ :=
  if Int.fract (θ / (2 * π)) < 1 / 2 then 1 else -1

/-- scipy `scipy.signal.sawtooth(theta, width)`: rises from −1 to 1 over the
first `width` fraction of each 2π period, falls back to −1 over the rest
(`width = 1` is the default pure sawtooth, `width = 0.5` the triangle). -/
def scipySawtooth (θ : ℝ) (width : ℝ) : ℝ :=
  let f := Int.fract (θ / (2 * π))
  if f < width then 2 * f / width - 1 else 1 - 2 * (f - width) / (1 - width)

/-- One record handed to the external `save_calculation` database sink
(database.py): operation name, logged numeric inputs, logged numeric
outputs. -/
structure SaveRecord where
  op : String
  inputs : List ℝ
  outputs : List ℝ

/-- Result dictionary of `generate_signal` (signal_processing.py lines 24-34),
plus the `save_calculation` side effect (lines 36-38) made explicit as the
`saved` record list. -/
structure GenResult where
  time : List ℝ
  signal : List ℝ
  signal_type : String
  frequency : ℝ
  amplitude : ℝ
  sample_rate : ℝ
  duration : ℝ
  rms : ℝ
  peak_to_peak : ℝ
  saved : List SaveRecord

/-- `generate_signal` (signal_processing.py lines 7-40).  The sample count is
`int(sample_rate * duration)` — Python `int()` truncation — and the time axis
is `np.linspace(0, duration, n)`, endpoint included. -/
def generate_signal (signal_type : String) (frequency amplitude duration : ℝ)
    (sample_rate : ℝ := 10000) (phase : ℝ := 0) (dc_offset : ℝ := 0) : GenResult :=
  let n : ℕ := (⌊sample_rate * duration⌋).toNat
  let t : List ℝ := linspace duration n
  let arg : ℝ → ℝ := fun tv => 2 * π * frequency * tv + radians phase
  let sig : List ℝ := t.map (fun tv =>
    if signal_type = "sine" then amplitude * Real.sin (arg tv) + dc_offset
    else if signal_type = "cosine" then amplitude * Real.cos (arg tv) + dc_offset
    else if signal_type = "square" then amplitude * scipySquare (arg tv) + dc_offset
    else if signal_type = "sawtooth" then amplitude * scipySawtooth (arg tv) 1 + dc_offset
    else if signal_type = "triangle" then amplitude * scipySawtooth (arg tv) (1 / 2) + dc_offset
    else 0)
  let st : String :=
    if signal_type = "sine" ∨ signal_type = "cosine" ∨ signal_type = "square" ∨
        signal_type = "sawtooth" ∨ signal_type = "triangle" then signal_type
    else "unknown"
  { time := t
    signal := sig
    signal_type := st
    frequency := frequency
    amplitude := amplitude
    sample_rate := sample_rate
    duration := duration
    rms := rmsOf sig
    peak_to_peak := pyMax sig - pyMin sig
    saved := [⟨"signal_generator", [frequency, amplitude], [rmsOf sig, pyMax sig - pyMin sig]⟩] }

/-- `scipy.fft.fft`, one coefficient: the discrete Fourier transform of a
complex sample list, `X_k = Σ_j x_j·e^(−2πi·jk/n)`. -/
def dftC (x : List ℂ) (k : ℕ) : ℂ :=
  ∑ j ∈ Finset.range x.length,
    x.getD j 0 * Complex.exp (-(2 * (π : ℂ) * Complex.I * j * k) / x.length)

/-- `np.fft.ifft`, one sample: the inverse discrete Fourier transform,
`x_j = (1/n)·Σ_k X_k·e^(+2πi·jk/n)`. -/
def ifftC (X : List ℂ) (j : ℕ) : ℂ :=
  (∑ k ∈ Finset.range X.length,
    X.getD k 0 * Complex.exp ((2 * (π : ℂ) * Complex.I * j * k) / X.length)) / X.length

/-- `scipy.fft.fftfreq(n)` (sample spacing 1, as used in `add_noise`):
bin `k` is `k/n` for `k < (n+1)/2` and `(k−n)/n` above. -/
def fftfreqVal (n : ℕ) (k : ℕ) : ℝ :=
  if k < (n + 1) / 2 then (k : ℝ) / n else ((k : ℝ) - n) / n

/-- Result dictionary of `compute_fft` (signal_processing.py lines 60-68). -/
structure FFTResult where
  frequencies : List ℝ
  magnitude : List ℝ
  magnitude_db : List ℝ
  phase : List ℝ
  dominant_frequency : ℝ
  dominant_magnitude : ℝ
  dc_component : ℝ

/-- `compute_fft` (signal_processing.py lines 42-70): Hann window, DFT, first
`n/2` bins, `2/n` magnitude scaling, dB floor `1e-10`, dominant bin =
`np.argmax(magnitude[1:]) + 1`.  When `magnitude[1:]` is empty — i.e. the
half-spectrum has at most one bin, `n ≤ 3` — `np.argmax` raises ValueError,
modelled as `none`. -/
def compute_fft (signal_data : List ℝ) (sample_rate : ℝ) : Option FFTResult :=
  let n := signal_data.length
  let xw : List ℝ := List.zipWith (· * ·) signal_data (hanning n)
  let nh := n / 2
  let freqs : List ℝ := (List.range nh).map (fun k : ℕ => (k : ℝ) * sample_rate / n)
  let mag : List ℝ :=
    (List.range nh).map (fun k => Complex.abs (dftC (xw.map (fun r : ℝ => (r : ℂ))) k) * 2 / n)
  let magdb : List ℝ := mag.map (fun m => 20 * log10 (m + 1 / 10 ^ 10))
  let ph : List ℝ :=
    (List.range nh).map (fun k => degrees (Complex.arg (dftC (xw.map (fun r : ℝ => (r : ℂ))) k)))
  if nh ≤ 1 then none
  else
    let didx := argmax mag.tail + 1
    some { frequencies := freqs
           magnitude := mag
           magnitude_db := magdb
           phase := ph
           dominant_frequency := freqs.getD didx 0
           dominant_magnitude := mag.getD didx 0
           dc_component := mag.getD 0 0 }

/-- A Python float that is either finite or `float('inf')`. -/
inductive PyFloat where
  | fin : ℝ → PyFloat
  | inf : PyFloat

/-- Result dictionary of `add_noise` (signal_processing.py lines 99-106). -/
structure NoiseResult where
  noisy_signal : List ℝ
  noise : List ℝ
  noise_type : String
  target_snr_db : ℝ
  actual_snr_db : PyFloat
  noise_rms : ℝ

/-- `add_noise` (signal_processing.py lines 72-108).  The global numpy random
generator is modelled as the explicit stream `rng : ℕ → ℝ` of standard draws
(standard normal for gaussian/pink white noise, standard uniform on ±1 for
uniform); the program's `np.random` calls read that ambient stream. -/
def add_noise (rng : ℕ → ℝ) (signal_data : List ℝ) (noise_type : String := "gaussian")
    (snr_db : ℝ := 20) : NoiseResult :=
  let n := signal_data.length
  let signal_power := meanSq signal_data
  let snr_linear : ℝ := (10 : ℝ) ^ (snr_db / 10)
  let noise_power := signal_power / snr_linear
  let noise : List ℝ :=
    if noise_type = "gaussian" then
      (List.range n).map (fun i => Real.sqrt noise_power * rng i)
    else if noise_type = "uniform" then
      (List.range n).map (fun i => Real.sqrt (3 * noise_power) * rng i)
    else if noise_type = "pink" then
      let white : List ℝ := (List.range n).map rng
      let fftw : List ℂ := (List.range n).map (fun k => dftC (white.map (fun r : ℝ => (r : ℂ))) k)
      let freqs : List ℝ :=
        (List.range n).map (fun k => if k = 0 then 1 / 10 ^ 10 else fftfreqVal n k)
      let pinkfft : List ℂ :=
        List.zipWith (fun X f => X * ((1 / Real.sqrt |f| : ℝ) : ℂ)) fftw freqs
      let noise0 : List ℝ := (List.range n).map (fun j => (ifftC pinkfft j).re)
      noise0.map (fun x => x * Real.sqrt noise_power / std noise0)
    else List.replicate n 0
  let noisy_signal := List.zipWith (· + ·) signal_data noise
  let mn := meanSq noise
  { noisy_signal := noisy_signal
    noise := noise
    noise_type := noise_type
    target_snr_db := snr_db
    actual_snr_db := if 0 < mn then .fin (10 * log10 (signal_power / mn)) else .inf
    noise_rms := Real.sqrt mn }

/-- Result dictionary of `bandwidth_analysis` (signal_processing.py lines
133-140), with the `save_calculation` write (lines 142-144) as `saved`. -/
structure BWResult where
  lower_frequency : ℝ
  upper_frequency : ℝ
  bandwidth : ℝ
  center_frequency : ℝ
  threshold_db : ℝ
  peak_magnitude_db : ℝ
  saved : List SaveRecord

/-- `bandwidth_analysis` (signal_processing.py lines 110-146): run
`compute_fft` (so `none` whenever that raises), select the bins whose dB
magnitude is at or above `max + threshold_db`, report min/max selected
frequency, or all zeros when none qualifies. -/
def bandwidth_analysis (signal_data : List ℝ) (sample_rate : ℝ)
    (threshold_db : ℝ := -3) : Option BWResult :=
  (compute_fft signal_data sample_rate).map (fun fft =>
    let magnitude_db := fft.magnitude_db
    let frequencies := fft.frequencies
    let max_magnitude := pyMax magnitude_db
    let threshold := max_magnitude + threshold_db
    let freq_above : List ℝ :=
      ((frequencies.zip magnitude_db).filter (fun p => if threshold ≤ p.2 then true else false)).map
        Prod.fst
    let lu : ℝ × ℝ × ℝ × ℝ :=
      if freq_above = [] then (0, 0, 0, 0)
      else (pyMin freq_above, pyMax freq_above, pyMax freq_above - pyMin freq_above,
        (pyMax freq_above + pyMin freq_above) / 2)
    { lower_frequency := lu.1
      upper_frequency := lu.2.1
      bandwidth := lu.2.2.1
      center_frequency := lu.2.2.2
      threshold_db := threshold_db
      peak_magnitude_db := max_magnitude
      saved := [⟨"bandwidth_analysis", [sample_rate, threshold_db],
        [lu.1, lu.2.1, lu.2.2.1, lu.2.2.2, threshold_db, max_magnitude]⟩] })

/-- A filter cutoff argument: a scalar frequency or a (low, high) pair. -/
inductive Cutoff where
  | scalar : ℝ → Cutoff
  | pair : ℝ → ℝ → Cutoff

/-- Result dictionary of `filter_signal`: on the success path the filtered
samples with `error = none`, on a validation failure the original samples
with the error message (signal_processing.py lines 159-167, 178, 182-189). -/
structure FilterResult where
  filtered_signal : List ℝ
  error : Option String
  original_rms : Option ℝ
  filtered_rms : Option ℝ

/-- `scipy.signal.lfilter(b, a, x)`: one-direction IIR filtering,
`a₀·y[n] = Σ_k b_k·x[n−k] − Σ_{k≥1} a_k·y[n−k]`; one output sample per
input sample. -/
def lfilterStep (b a : List ℝ) (x : List ℝ) (ys : List ℝ) (n : ℕ) : ℝ :=
  ((∑ k ∈ Finset.range b.length, if k ≤ n then b.getD k 0 * x.getD (n - k) 0 else 0) -
    (∑ k ∈ Finset.range a.length,
      if 1 ≤ k ∧ k ≤ n then a.getD k 0 * ys.getD (n - k) 0 else 0)) / a.headD 1

/-- `scipy.signal.lfilter` over a whole sample list. -/
def lfilter (b a : List ℝ) (x : List ℝ) : List ℝ :=
  (List.range x.length).foldl (fun ys n => ys ++ [lfilterStep b a x ys n]) []

/-- `scipy.signal.filtfilt(b, a, x)` as the spec describes it (§4.5
"zero-phase (forward-backward) filter"): filter forward, reverse, filter
again, reverse.  Modelled from the spec: scipy's padding refinements are not
part of this repository. -/
def filtfilt (b a : List ℝ) (x : List ℝ) : List ℝ :=
  (lfilter b a (lfilter b a x).reverse).reverse

/-- `filter_signal` (signal_processing.py lines 148-191).  The Butterworth
coefficient design `scipy.signal.butter(order, cutoff, btype)` is external
library code whose numerics are not reproduced; the embedding is parametric
in it (`butterImpl order btype cutoff = (b, a)`).  Validation and dispatch
follow the source: any Nyquist-normalized cutoff outside the open interval
(0, 1) yields the error result with the original samples, before the filter
type is even examined. -/
def filter_signal (butterImpl : ℕ → String → Cutoff → List ℝ × List ℝ)
    (signal_data : List ℝ) (sample_rate : ℝ) (filter_type : String)
    (cutoff_freq : Cutoff) (order : ℕ := 4) : FilterResult :=
  let nyquist := sample_rate / 2
  let invalid : Bool :=
    match cutoff_freq with
    | .scalar c => if 1 ≤ c / nyquist ∨ c / nyquist ≤ 0 then true else false
    | .pair lo hi =>
      if (1 ≤ lo / nyquist ∨ lo / nyquist ≤ 0) ∨
          (1 ≤ hi / nyquist ∨ hi / nyquist ≤ 0) then true else false
  if invalid then
    { filtered_signal := signal_data
      error := some "Cutoff frequency must be between 0 and Nyquist frequency"
      original_rms := none
      filtered_rms := none }
  else if filter_type = "lowpass" ∨ filter_type = "highpass" ∨
      filter_type = "bandpass" ∨ filter_type = "bandstop" then
    let ba := butterImpl order filter_type cutoff_freq
    let filtered := filtfilt ba.1 ba.2 signal_data
    { filtered_signal := filtered
      error := none
      original_rms := some (rmsOf signal_data)
      filtered_rms := some (rmsOf filtered) }
  else
    { filtered_signal := signal_data
      error := some "Unknown filter type"
      original_rms := none
      filtered_rms := none }

/-- `frequency_response` per-point inductive reactance: `ω·L` when `L > 0`
else `0` (circuit_analysis.py line 103). -/
def fr_xl (inductance ω : ℝ) : ℝ := if 0 < inductance then ω * inductance else 0

/-- `frequency_response` per-point capacitive reactance: `1/(ω·C)` when
`C > 0` else `0` (circuit_analysis.py line 104). -/
def fr_xc (capacitance ω : ℝ) : ℝ := if 0 < capacitance then 1 / (ω * capacitance) else 0

/-- `frequency_response` per-point impedance magnitude
(circuit_analysis.py line 107). -/
def fr_pointImpedance (R L C f : ℝ) : ℝ :=
  Real.sqrt (R ^ 2 + (fr_xl L (2 * π * f) - fr_xc C (2 * π * f)) ^ 2)

/-- `frequency_response` per-point gain in dB, 0 when the impedance is not
positive (circuit_analysis.py line 110). -/
def fr_pointGain (R L C f : ℝ) : ℝ :=
  if 0 < fr_pointImpedance R L C f then 20 * log10 (R / fr_pointImpedance R L C f) else 0

/-- `frequency_response` per-point phase in degrees:
`atan2(−(X_L − X_C), R)` (circuit_analysis.py line 113). -/
def fr_pointPhase (R L C f : ℝ) : ℝ :=
  degrees (atan2 (-(fr_xl L (2 * π * f) - fr_xc C (2 * π * f))) R)

/-- Result dictionary of `frequency_response` (circuit_analysis.py lines
118-130): the `q_factor`/`bandwidth` keys exist only when the resonant
frequency is present and truthy (Python `if resonant_freq:`). -/
structure FreqResult where
  frequencies : List ℝ
  gains_db : List ℝ
  phases : List ℝ
  impedances : List ℝ
  resonant_frequency : Option ℝ
  q_factor : Option ℝ
  bandwidth : Option PyFloat

/-- `frequency_response` (circuit_analysis.py lines 94-132). -/
def frequency_response (resistance inductance capacitance : ℝ)
    (freq_start : ℝ := 1) (freq_end : ℝ := 1000000) (points : ℕ := 100) : FreqResult :=
  let frequencies := logspace (log10 freq_start) (log10 freq_end) points
  let resonant_freq : Option ℝ :=
    if 0 < inductance ∧ 0 < capacitance then
      some (1 / (2 * π * Real.sqrt (inductance * capacitance)))
    else none
  let q_factor : ℝ := (1 / resistance) * Real.sqrt (inductance / capacitance)
  let meta : Option (ℝ × PyFloat) :=
    match resonant_freq with
    | some r =>
      if r = 0 then none
      else some (q_factor, if 0 < q_factor then .fin (r / q_factor) else .inf)
    | none => none
  { frequencies := frequencies
    gains_db := frequencies.map (fr_pointGain resistance inductance capacitance)
    phases := frequencies.map (fr_pointPhase resistance inductance capacitance)
    impedances := frequencies.map (fr_pointImpedance resistance inductance capacitance)
    resonant_frequency := resonant_freq
    q_factor := meta.map Prod.fst
    bandwidth := meta.map Prod.snd }

/-- `run_rlc_resonance` per-point impedance (virtual_lab.py line 106):
reactances unguarded, unlike `frequency_response`. -/
def vl_pointImpedance (R L C f : ℝ) : ℝ :=
  Real.sqrt (R ^ 2 + (2 * π * f * L - 1 / (2 * π * f * C)) ^ 2)

/-- `run_rlc_resonance` per-point phase in degrees:
`atan2(X_L − X_C, R)` (virtual_lab.py line 107). -/
def vl_pointPhase (R L C f : ℝ) : ℝ :=
  degrees (atan2 (2 * π * f * L - 1 / (2 * π * f * C)) R)

/-- `run_rlc_resonance` per-point gain in dB, unguarded
(virtual_lab.py line 108). -/
def vl_pointGain (R L C f : ℝ) : ℝ :=
  20 * log10 (R / vl_pointImpedance R L C f)

/-- Result dictionary of `run_rlc_resonance` (virtual_lab.py lines 114-133). -/
structure RlcResult where
  resonant_frequency_hz : ℝ
  q_factor : ℝ
  bandwidth_hz : PyFloat
  damping_factor : ℝ
  response_type : String
  frequencies : List ℝ
  impedances : List ℝ
  phases : List ℝ
  gains_db : List ℝ

/-- `run_rlc_resonance` (virtual_lab.py lines 83-135). -/
def run_rlc_resonance (resistance inductance capacitance : ℝ)
    (freq_start : ℝ := 10) (freq_end : ℝ := 100000) (points : ℕ := 500) : RlcResult :=
  let f0 : ℝ := 1 / (2 * π * Real.sqrt (inductance * capacitance))
  let q_factor : ℝ := (1 / resistance) * Real.sqrt (inductance / capacitance)
  let bandwidth : PyFloat := if 0 < q_factor then .fin (f0 / q_factor) else .inf
  let damping : ℝ := resistance / (2 * Real.sqrt (inductance / capacitance))
  let response_type : String :=
    if damping < 1 then "Underdamped"
    else if damping = 1 then "Critically Damped"
    else "Overdamped"
  let frequencies := logspace (log10 freq_start) (log10 freq_end) points
  { resonant_frequency_hz := f0
    q_factor := q_factor
    bandwidth_hz := bandwidth
    damping_factor := damping
    response_type := response_type
    frequencies := frequencies
    impedances := frequencies.map (vl_pointImpedance resistance inductance capacitance)
    phases := frequencies.map (vl_pointPhase resistance inductance capacitance)
    gains_db := frequencies.map (vl_pointGain resistance inductance capacitance) }

/-! ### Helper lemmas -/

lemma linspace_length (stop : ℝ) (num : ℕ) : (linspace stop num).length = num := by
  simp [linspace]

lemma linspace_getD (stop : ℝ) (num i : ℕ) (h : i < num) :
    (linspace stop num).getD i 0 = stop * i / ((num : ℝ) - 1) := by
  unfold linspace
  rw [List.getD_eq_getElem?_getD, List.getElem?_map, List.getElem?_range h]
  rfl

lemma generate_signal_time (st : String) (f a d sr ph off : ℝ) :
    (generate_signal st f a d sr ph off).time = linspace d ((⌊sr * d⌋).toNat) := rfl

lemma generate_signal_signal_length (st : String) (f a d sr ph off : ℝ) :
    (generate_signal st f a d sr ph off).signal.length = (⌊sr * d⌋).toNat := by
  simp [generate_signal, linspace]

/-! ### C1: sample count and time axis of `generate_signal` -/

/-- C1, counterexample: at sample rate 10 Hz and duration 0.27 s the sample
count is `int(2.7) = 2`, not `round(2.7) = 3`, and — the time axis being
`np.linspace` with its endpoint included — the last sample lies exactly at
`t = duration`. -/
theorem generate_signal_c1_counterexample :
    ((generate_signal "sine" 1 1 (27 / 100) 10 0 0).time.length : ℤ) ≠
        round ((10 : ℝ) * (27 / 100)) ∧
    (27 / 100 : ℝ) ∈ (generate_signal "sine" 1 1 (27 / 100) 10 0 0).time := by
  have hn : ((⌊(10 : ℝ) * (27 / 100)⌋).toNat) = 2 := by
    norm_num
    rfl
  constructor
  · rw [generate_signal_time, linspace_length, hn]
    norm_num [round_eq]
  · rw [generate_signal_time, hn]
    have : linspace (27 / 100 : ℝ) 2 = [0, 27 / 100] := by
      norm_num [linspace, List.range_succ]
    rw [this]
    simp

/-- C1, amended: the sample count is `⌊sampleRate·duration⌋` (Python `int`
truncation, not rounding), and the time axis is evenly spaced over the
closed interval [0, duration]: `t_i = duration·i/(n−1)`, so `t_0 = 0` and,
for `n ≥ 2`, the last sample lies exactly at `t = duration`. -/
theorem generate_signal_length_time_axis (st : String) (f a d sr ph off : ℝ)
    (hf : 0 < f) (hd : 0 < d) (hsr : 0 < sr) :
    (generate_signal st f a d sr ph off).signal.length = (⌊sr * d⌋).toNat ∧
    (generate_signal st f a d sr ph off).time.length = (⌊sr * d⌋).toNat ∧
    (∀ i, i < (⌊sr * d⌋).toNat →
      (generate_signal st f a d sr ph off).time.getD i 0 =
        d * i / (((⌊sr * d⌋).toNat : ℝ) - 1)) ∧
    (1 ≤ (⌊sr * d⌋).toNat → (generate_signal st f a d sr ph off).time.getD 0 0 = 0) ∧
    (2 ≤ (⌊sr * d⌋).toNat →
      (generate_signal st f a d sr ph off).time.getD ((⌊sr * d⌋).toNat - 1) 0 = d) ∧
    (∀ i, i + 1 < (⌊sr * d⌋).toNat →
      (generate_signal st f a d sr ph off).time.getD (i + 1) 0 -
        (generate_signal st f a d sr ph off).time.getD i 0 =
          d / (((⌊sr * d⌋).toNat : ℝ) - 1)) := by
  set n := (⌊sr * d⌋).toNat with hn
  refine ⟨generate_signal_signal_length .., ?_, ?_, ?_, ?_, ?_⟩
  · rw [generate_signal_time, linspace_length]
  · intro i hi
    rw [generate_signal_time, linspace_getD _ _ _ hi]
  · intro h1
    rw [generate_signal_time, linspace_getD _ _ _ (by omega)]
    simp
  · intro h2
    rw [generate_signal_time, linspace_getD _ _ _ (by omega)]
    have hc : ((n - 1 : ℕ) : ℝ) = (n : ℝ) - 1 := by
      rw [Nat.cast_sub (by omega), Nat.cast_one]
    rw [hc]
    have hne : (n : ℝ) - 1 ≠ 0 := by
      have : (2 : ℝ) ≤ (n : ℝ) := by exact_mod_cast h2
      linarith
    field_simp
  · intro i hi
    rw [generate_signal_time, linspace_getD _ _ _ hi, linspace_getD _ _ _ (by omega)]
    have hne : (n : ℝ) - 1 ≠ 0 := by
      have : (2 : ℝ) ≤ (n : ℝ) := by exact_mod_cast (show 2 ≤ n by omega)
      linarith
    push_cast
    field_simp
    ring

/-- C1, witness: the amended theorem at a concrete input (pure sine, 1 Hz,
1 s, 4 Hz sample rate): 4 samples, last one at `t = duration = 1`. -/
theorem generate_signal_length_time_axis_witness :
    (generate_signal "sine" 1 1 1 4 0 0).signal.length = (⌊(4 : ℝ) * 1⌋).toNat ∧
    (generate_signal "sine" 1 1 1 4 0 0).time.length = (⌊(4 : ℝ) * 1⌋).toNat ∧
    (∀ i, i < (⌊(4 : ℝ) * 1⌋).toNat →
      (generate_signal "sine" 1 1 1 4 0 0).time.getD i 0 =
        1 * i / (((⌊(4 : ℝ) * 1⌋).toNat : ℝ) - 1)) ∧
    (1 ≤ (⌊(4 : ℝ) * 1⌋).toNat → (generate_signal "sine" 1 1 1 4 0 0).time.getD 0 0 = 0) ∧
    (2 ≤ (⌊(4 : ℝ) * 1⌋).toNat →
      (generate_signal "sine" 1 1 1 4 0 0).time.getD ((⌊(4 : ℝ) * 1⌋).toNat - 1) 0 = 1) ∧
    (∀ i, i + 1 < (⌊(4 : ℝ) * 1⌋).toNat →
      (generate_signal "sine" 1 1 1 4 0 0).time.getD (i + 1) 0 -
        (generate_signal "sine" 1 1 1 4 0 0).time.getD i 0 =
          1 / (((⌊(4 : ℝ) * 1⌋).toNat : ℝ) - 1)) := by
  have h := generate_signal_length_time_axis "sine" 1 1 1 4 0 0
    (by norm_num) (by norm_num) (by norm_num)
  rw [show ((4 : ℝ) * 1) = 4 * 1 from rfl] at h
  exact h

/-! ### C5 and C7: `compute_fft` on degenerate inputs -/

/-- C5: on a one-sample signal `compute_fft` does not return a single DC bin —
its half-spectrum is empty (`n/2 = 0` bins), `magnitude[1:]` is empty, and
`np.argmax` raises ValueError (`none` in the embedding). -/
theorem compute_fft_single_sample_raises :
    compute_fft [1] 10 = none := by
  simp [compute_fft]

/-- C7: the generated pure sine with `sample_rate = 3`, `duration = 1`,
`f = 1 Hz` has `f` exactly on bin center 1 (`1·sampleRate/N = 1` Hz), yet
`compute_fft` reports nothing: with `N = 3` samples the half-spectrum has one
bin, `magnitude[1:]` is empty, and `np.argmax` raises ValueError (`none`). -/
theorem compute_fft_bin_center_sine_raises :
    compute_fft (generate_signal "sine" 1 1 1 3 0 0).signal 3 = none := by
  have hlen : (generate_signal "sine" 1 1 1 3 0 0).signal.length = 3 := by
    rw [generate_signal_signal_length]
    norm_num
    rfl
  unfold compute_fft
  rw [hlen]
  norm_num

/-! ### C6: `bandwidth_analysis` bin selection -/

/-- C6, counterexample: `bandwidth_analysis` on the non-empty two-sample
signal `[1, 2]` returns no structured result at all — `compute_fft` raises
(ValueError from `np.argmax` on the empty `magnitude[1:]`), so no selection
is reported. -/
theorem bandwidth_analysis_c6_counterexample :
    bandwidth_analysis [1, 2] 10 (-3) = none := by
  simp [bandwidth_analysis, compute_fft]

/-! ### C2: the duplicated sweep phase formulas -/

lemma atan2_neg_left (y x : ℝ) (hx : 0 < x) : atan2 (-y) x = -atan2 y x := by
  unfold atan2
  rw [if_pos hx, if_pos hx, neg_div, Real.arctan_neg]

lemma logspace_mem_pos (a b : ℝ) (num : ℕ) (f : ℝ) (hf : f ∈ logspace a b num) : 0 < f := by
  unfold logspace at hf
  rcases List.mem_map.mp hf with ⟨i, _, hi⟩
  rw [← hi]
  exact Real.rpow_pos_of_pos (by norm_num) _

lemma vl_fr_phase_neg (R L C f : ℝ) (hR : 0 < R) (hL : 0 < L) (hC : 0 < C) :
    vl_pointPhase R L C f = -fr_pointPhase R L C f := by
  unfold vl_pointPhase fr_pointPhase fr_xl fr_xc degrees
  rw [if_pos hL, if_pos hC, atan2_neg_left _ _ hR]
  ring

/-- C2, counterexample: with R = L = C = 1 and the one-point sweep at
frequency 1 Hz, `frequency_response` reports phase
`atan2(−(X_L−X_C), R)` while `run_rlc_resonance` reports
`atan2(X_L−X_C, R)`; since `X_L − X_C = 2π − 1/(2π) ≠ 0`, the two per-point
phase lists differ. -/
theorem sweep_phase_c2_counterexample :
    (run_rlc_resonance 1 1 1 1 1 1).phases ≠ (frequency_response 1 1 1 1 1 1).phases := by
  have hfreq : logspace (log10 1) (log10 1) 1 = [1] := by
    unfold logspace log10
    rw [show List.range 1 = [0] from rfl]
    simp [Real.logb_one]
  have hx : (0 : ℝ) < 2 * π * 1 * 1 - 1 / (2 * π * 1 * 1) := by
    have hπ : (3.141592 : ℝ) < π := Real.pi_gt_d6
    have h2π : (6 : ℝ) < 2 * π * 1 * 1 := by nlinarith
    have : 1 / (2 * π * 1 * 1) < 1 := by
      rw [div_lt_one (by linarith)]
      linarith
    linarith
  intro h
  unfold run_rlc_resonance frequency_response at h
  rw [hfreq] at h
  simp only [List.map_cons, List.map_nil, List.cons.injEq, and_true] at h
  unfold vl_pointPhase fr_pointPhase fr_xl fr_xc degrees at h
  rw [if_pos (by norm_num : (0:ℝ) < 1), if_pos (by norm_num : (0:ℝ) < 1)] at h
  unfold atan2 at h
  rw [if_pos (by norm_num : (0:ℝ) < 1), if_pos (by norm_num : (0:ℝ) < 1)] at h
  set x : ℝ := 2 * π * 1 * 1 - 1 / (2 * π * 1 * 1) with hxdef
  have h0 : 0 < Real.arctan x := by
    have := Real.arctan_strictMono hx
    rwa [Real.arctan_zero] at this
  have harctan_pos : 0 < Real.arctan (x / 1) := by
    rw [div_one]
    exact h0
  have harctan_neg : Real.arctan (-x / 1) < 0 := by
    rw [div_one, Real.arctan_neg]
    linarith
  have hppos : 0 < (180 : ℝ) / π := by positivity
  have hne : Real.arctan (x / 1) * 180 / π ≠ Real.arctan (-x / 1) * 180 / π := by
    have h1 : 0 < Real.arctan (x / 1) * 180 / π := by
      rw [mul_div_assoc]
      positivity
    have h2 : Real.arctan (-x / 1) * 180 / π < 0 := by
      rw [mul_div_assoc]
      exact mul_neg_of_neg_of_pos harctan_neg hppos
    linarith
  exact hne h

/-- C2, amended: the two sweep implementations do NOT agree point for point —
they compute phases of opposite sign.  `frequency_response`
(circuit_analysis.py) reports `atan2(−(X_L−X_C), R)` in degrees, while
`run_rlc_resonance` (virtual_lab.py) reports `atan2(X_L−X_C, R)` in degrees;
for every R, L, C > 0 the virtual-lab phase list is the pointwise negation of
the circuit-analysis phase list. -/
theorem sweep_phases_opposite (R L C fs fe : ℝ) (pts : ℕ)
    (hR : 0 < R) (hL : 0 < L) (hC : 0 < C) :
    (run_rlc_resonance R L C fs fe pts).phases =
      ((frequency_response R L C fs fe pts).phases).map (fun p => -p) := by
  unfold run_rlc_resonance frequency_response
  simp only [List.map_map]
  apply List.map_congr_left
  intro f hf
  have hfpos : 0 < f := logspace_mem_pos _ _ _ _ hf
  exact vl_fr_phase_neg R L C f hR hL hC

/-- C2, witness: the pointwise-negation theorem at R = L = C = 1 over the
default-style one-point sweep. -/
theorem sweep_phases_opposite_witness :
    (run_rlc_resonance 1 1 1 1 1 1).phases =
      ((frequency_response 1 1 1 1 1 1).phases).map (fun p => -p) :=
  sweep_phases_opposite 1 1 1 1 1 1 (by norm_num) (by norm_num) (by norm_num)

/-! ### C3 and C10: `filter_signal` validation and length preservation -/

lemma foldl_append_length (step : List ℝ → ℕ → ℝ) (l : List ℕ) (init : List ℝ) :
    (l.foldl (fun ys n => ys ++ [step ys n]) init).length = init.length + l.length := by
  induction l generalizing init with
  | nil => simp
  | cons h t ih =>
    rw [List.foldl_cons, ih]
    simp
    omega

lemma lfilter_length (b a x : List ℝ) : (lfilter b a x).length = x.length := by
  unfold lfilter
  rw [foldl_append_length]
  simp

lemma filtfilt_length (b a x : List ℝ) : (filtfilt b a x).length = x.length := by
  unfold filtfilt
  simp [lfilter_length]

/-- C3: whenever any Nyquist-normalized cutoff value lies outside the open
interval (0, 1), `filter_signal` returns — for every filter type and every
Butterworth design — a structured error result whose `filtered_signal` is the
original signal unchanged; no exception is modelled because the function is
total. -/
theorem filter_signal_invalid_cutoff (impl : ℕ → String → Cutoff → List ℝ × List ℝ)
    (s : List ℝ) (sr : ℝ) (ft : String) (c : Cutoff) (o : ℕ) (hsr : 0 < sr)
    (hinv : match c with
      | .scalar v => ¬(0 < v / (sr / 2) ∧ v / (sr / 2) < 1)
      | .pair lo hi => ¬(0 < lo / (sr / 2) ∧ lo / (sr / 2) < 1) ∨
          ¬(0 < hi / (sr / 2) ∧ hi / (sr / 2) < 1)) :
    (filter_signal impl s sr ft c o).filtered_signal = s ∧
    (filter_signal impl s sr ft c o).error.isSome := by
  cases c with
  | scalar v =>
    have hcond : 1 ≤ v / (sr / 2) ∨ v / (sr / 2) ≤ 0 := by
      by_contra hc
      push_neg at hc
      exact hinv ⟨hc.2, hc.1⟩
    simp [filter_signal, hcond]
  | pair lo hi =>
    have hcond : (1 ≤ lo / (sr / 2) ∨ lo / (sr / 2) ≤ 0) ∨
        (1 ≤ hi / (sr / 2) ∨ hi / (sr / 2) ≤ 0) := by
      rcases hinv with h | h
      · left
        by_contra hc
        push_neg at hc
        exact h ⟨hc.2, hc.1⟩
      · right
        by_contra hc
        push_neg at hc
        exact h ⟨hc.2, hc.1⟩
    simp [filter_signal, hcond]

/-- C3, witness: a lowpass request at cutoff 0 Hz (normalized value 0, not in
(0, 1)) is rejected with the original two-sample signal untouched. -/
theorem filter_signal_invalid_cutoff_witness :
    (filter_signal (fun _ _ _ => ([], [])) [1, 2] 10 "lowpass" (.scalar 0) 4).filtered_signal
        = [1, 2] ∧
    (filter_signal (fun _ _ _ => ([], [])) [1, 2] 10 "lowpass" (.scalar 0) 4).error.isSome :=
  filter_signal_invalid_cutoff (fun _ _ _ => ([], [])) [1, 2] 10 "lowpass" (.scalar 0) 4
    (by norm_num) (by norm_num)

/-- C10: for every non-empty signal, known filter type and valid cutoff, the
filtered output of `filter_signal` has exactly as many samples as the input —
for any designed coefficients, since the zero-phase forward-backward
application produces one output sample per input sample in each pass. -/
theorem filter_signal_preserves_length (impl : ℕ → String → Cutoff → List ℝ × List ℝ)
    (s : List ℝ) (sr : ℝ) (ft : String) (c : Cutoff) (o : ℕ) (hs : s ≠ [])
    (hvalid : match c with
      | .scalar v => 0 < v / (sr / 2) ∧ v / (sr / 2) < 1
      | .pair lo hi => (0 < lo / (sr / 2) ∧ lo / (sr / 2) < 1) ∧
          (0 < hi / (sr / 2) ∧ hi / (sr / 2) < 1))
    (hft : ft = "lowpass" ∨ ft = "highpass" ∨ ft = "bandpass" ∨ ft = "bandstop") :
    (filter_signal impl s sr ft c o).filtered_signal.length = s.length := by
  cases c with
  | scalar v =>
    have h1 : ¬(1 ≤ v / (sr / 2)) := not_le.mpr hvalid.2
    have h2 : ¬(v / (sr / 2) ≤ 0) := not_le.mpr hvalid.1
    simp [filter_signal, h1, h2, hft, filtfilt_length]
  | pair lo hi =>
    have h1 : ¬(1 ≤ lo / (sr / 2)) := not_le.mpr hvalid.1.2
    have h2 : ¬(lo / (sr / 2) ≤ 0) := not_le.mpr hvalid.1.1
    have h3 : ¬(1 ≤ hi / (sr / 2)) := not_le.mpr hvalid.2.2
    have h4 : ¬(hi / (sr / 2) ≤ 0) := not_le.mpr hvalid.2.1
    simp [filter_signal, h1, h2, h3, h4, hft, filtfilt_length]

/-- C10, witness: a valid lowpass request on a two-sample signal yields a
two-sample filtered signal. -/
theorem filter_signal_preserves_length_witness :
    (filter_signal (fun _ _ _ => ([1], [1])) [1, 2] 10 "lowpass" (.scalar 1) 4).filtered_signal.length
      = ([1, 2] : List ℝ).length :=
  filter_signal_preserves_length (fun _ _ _ => ([1], [1])) [1, 2] 10 "lowpass" (.scalar 1) 4
    (by simp) (by norm_num) (by simp)

/-! ### C4 and C9: `add_noise` state dependence, unknown types, achieved SNR -/

lemma zipWith_add_replicate_zero (s : List ℝ) :
    List.zipWith (· + ·) s (List.replicate s.length 0) = s := by
  induction s with
  | nil => rfl
  | cons h t ih => simp [List.replicate_succ, ih]

lemma meanSq_nonneg (l : List ℝ) : 0 ≤ meanSq l := by
  unfold meanSq mean
  apply div_nonneg
  · apply List.sum_nonneg
    intro x hx
    rcases List.mem_map.mp hx with ⟨y, _, rfl⟩
    positivity
  · positivity

lemma pyfloat_ite_inf (m x : ℝ) (hm : 0 ≤ m) :
    ((if 0 < m then PyFloat.fin x else PyFloat.inf) = PyFloat.inf ↔ m = 0) := by
  rcases eq_or_lt_of_le hm with h | h
  · simp [← h]
  · rw [if_pos h]
    constructor
    · intro hc
      exact PyFloat.noConfusion hc
    · intro he
      rw [he] at h
      exact absurd h (lt_irrefl 0)

/-- C4, counterexample: the core is not stateless — `add_noise` with a
recognized noise type reads the global numpy random-number generator, so two
invocations with identical arguments but different ambient RNG states return
different outputs. -/
theorem add_noise_c4_counterexample :
    add_noise (fun _ => 0) [1] "gaussian" 20 ≠ add_noise (fun _ => 1) [1] "gaussian" 20 := by
  intro h
  have hn := congrArg NoiseResult.noise h
  simp [add_noise] at hn
  have hsp : meanSq [(1 : ℝ)] = 1 := by
    simp [meanSq, mean]
  have hnp : (0 : ℝ) < meanSq [(1 : ℝ)] / (10 : ℝ) ^ ((20 : ℝ) / 10) := by
    rw [hsp]
    positivity
  have : (0 : ℝ) < Real.sqrt (meanSq [(1 : ℝ)] / (10 : ℝ) ^ ((20 : ℝ) / 10)) :=
    Real.sqrt_pos.mpr hnp
  rw [← hn] at this
  exact absurd this (lt_irrefl 0)

/-- C4, amended: the transforms are deterministic in everything but the
ambient RNG stream — `add_noise` with an unrecognized noise type does not
even read that stream — but the claim's "no I/O, no state" fails:
`add_noise` with a recognized noise type depends on the global RNG state
(see the counterexample), and `generate_signal` performs a
`save_calculation` database write on every call. -/
theorem core_effects_amended :
    (∀ (s : List ℝ) (snr : ℝ) (nt : String) (rng rng' : ℕ → ℝ),
        nt ≠ "gaussian" → nt ≠ "uniform" → nt ≠ "pink" →
        add_noise rng s nt snr = add_noise rng' s nt snr) ∧
    (∀ (st : String) (f a d sr ph off : ℝ),
        (generate_signal st f a d sr ph off).saved ≠ []) := by
  constructor
  · intro s snr nt rng rng' h1 h2 h3
    simp [add_noise, h1, h2, h3]
  · intro st f a d sr ph off
    simp [generate_signal]

/-- C4, witness: the amended theorem at concrete inputs — an unknown noise
type is RNG-independent, and a concrete `generate_signal` call logs a
`save_calculation` record. -/
theorem core_effects_amended_witness :
    add_noise (fun _ => 0) [1] "brown" 20 = add_noise (fun _ => 1) [1] "brown" 20 ∧
    (generate_signal "sine" 1 1 1 4 0 0).saved ≠ [] :=
  ⟨core_effects_amended.1 [1] 20 "brown" (fun _ => 0) (fun _ => 1)
      (by simp) (by simp) (by simp),
    core_effects_amended.2 "sine" 1 1 1 4 0 0⟩

/-- C9: an unrecognized noise type yields the zero noise vector and a noisy
signal equal to the input (no exception: the function is total); and for
every call the reported achieved SNR is the `inf` marker exactly when the
realized mean squared noise is zero. -/
theorem add_noise_unknown_and_snr :
    (∀ (rng : ℕ → ℝ) (s : List ℝ) (snr : ℝ) (nt : String),
        nt ≠ "gaussian" → nt ≠ "uniform" → nt ≠ "pink" →
        (add_noise rng s nt snr).noise = List.replicate s.length 0 ∧
        (add_noise rng s nt snr).noisy_signal = s) ∧
    (∀ (rng : ℕ → ℝ) (s : List ℝ) (snr : ℝ) (nt : String),
        ((add_noise rng s nt snr).actual_snr_db = PyFloat.inf ↔
          meanSq (add_noise rng s nt snr).noise = 0)) := by
  constructor
  · intro rng s snr nt h1 h2 h3
    constructor
    · simp [add_noise, h1, h2, h3]
    · simp [add_noise, h1, h2, h3, zipWith_add_replicate_zero]
  · intro rng s snr nt
    simp only [add_noise]
    exact pyfloat_ite_inf _ _ (meanSq_nonneg _)

/-- C9, witness: concrete unknown noise type `"none"` on `[1, 2]`: zero
noise, unchanged signal, and the achieved-SNR `inf` iff. -/
theorem add_noise_unknown_and_snr_witness :
    ((add_noise (fun _ => 0) [1, 2] "none" 20).noise =
        List.replicate ([1, 2] : List ℝ).length 0 ∧
      (add_noise (fun _ => 0) [1, 2] "none" 20).noisy_signal = [1, 2]) ∧
    ((add_noise (fun _ => 0) [1, 2] "none" 20).actual_snr_db = PyFloat.inf ↔
      meanSq (add_noise (fun _ => 0) [1, 2] "none" 20).noise = 0) :=
  ⟨add_noise_unknown_and_snr.1 (fun _ => 0) [1, 2] 20 "none"
      (by simp) (by simp) (by simp),
    add_noise_unknown_and_snr.2 (fun _ => 0) [1, 2] 20 "none"⟩

/-! ### C8: resonance metadata of the frequency sweep -/

/-- C8: with both reactive elements positive the sweep reports
`f0 = 1/(2π√(LC))`, `Q = (1/R)·√(L/C)` and half-power bandwidth `f0/Q`
(both in `frequency_response` and in `run_rlc_resonance`); with either
element absent `frequency_response` produces no resonance metadata; and at
R = 100 Ω, L = 1 mH, C = 1 µF the resonant frequency is within 0.1 Hz of
5032.9 Hz. -/
theorem frequency_response_resonance :
    (∀ (R L C fs fe : ℝ) (pts : ℕ), 0 < R → 0 < L → 0 < C →
      (frequency_response R L C fs fe pts).resonant_frequency =
          some (1 / (2 * π * Real.sqrt (L * C))) ∧
      (frequency_response R L C fs fe pts).q_factor =
          some ((1 / R) * Real.sqrt (L / C)) ∧
      (frequency_response R L C fs fe pts).bandwidth =
          some (.fin ((1 / (2 * π * Real.sqrt (L * C))) / ((1 / R) * Real.sqrt (L / C)))) ∧
      (run_rlc_resonance R L C fs fe pts).resonant_frequency_hz =
          1 / (2 * π * Real.sqrt (L * C)) ∧
      (run_rlc_resonance R L C fs fe pts).q_factor = (1 / R) * Real.sqrt (L / C) ∧
      (run_rlc_resonance R L C fs fe pts).bandwidth_hz =
          .fin ((1 / (2 * π * Real.sqrt (L * C))) / ((1 / R) * Real.sqrt (L / C)))) ∧
    (∀ (R L C fs fe : ℝ) (pts : ℕ), ¬(0 < L ∧ 0 < C) →
      (frequency_response R L C fs fe pts).resonant_frequency = none ∧
      (frequency_response R L C fs fe pts).q_factor = none ∧
      (frequency_response R L C fs fe pts).bandwidth = none) ∧
    |(frequency_response 100 (1 / 1000) (1 / 1000000) 1 1000000 100).resonant_frequency.getD 0
        - 5032.9| < 1 / 10 := by
  have hmain : ∀ (R L C fs fe : ℝ) (pts : ℕ), 0 < R → 0 < L → 0 < C →
      (frequency_response R L C fs fe pts).resonant_frequency =
          some (1 / (2 * π * Real.sqrt (L * C))) ∧
      (frequency_response R L C fs fe pts).q_factor =
          some ((1 / R) * Real.sqrt (L / C)) ∧
      (frequency_response R L C fs fe pts).bandwidth =
          some (.fin ((1 / (2 * π * Real.sqrt (L * C))) / ((1 / R) * Real.sqrt (L / C)))) ∧
      (run_rlc_resonance R L C fs fe pts).resonant_frequency_hz =
          1 / (2 * π * Real.sqrt (L * C)) ∧
      (run_rlc_resonance R L C fs fe pts).q_factor = (1 / R) * Real.sqrt (L / C) ∧
      (run_rlc_resonance R L C fs fe pts).bandwidth_hz =
          .fin ((1 / (2 * π * Real.sqrt (L * C))) / ((1 / R) * Real.sqrt (L / C))) := by
    intro R L C fs fe pts hR hL hC
    have hLC : 0 < L * C := mul_pos hL hC
    have hsq : 0 < Real.sqrt (L * C) := Real.sqrt_pos.mpr hLC
    have hf0 : 0 < 1 / (2 * π * Real.sqrt (L * C)) := by positivity
    have hq : 0 < (1 / R) * Real.sqrt (L / C) := by
      have : 0 < L / C := div_pos hL hC
      have : 0 < Real.sqrt (L / C) := Real.sqrt_pos.mpr this
      positivity
    have hsqd : 0 < Real.sqrt (L / C) := Real.sqrt_pos.mpr (div_pos hL hC)
    have hRinv : 0 < R⁻¹ * Real.sqrt (L / C) := by positivity
    refine ⟨?_, ?_, ?_, ?_, ?_, ?_⟩
    · simp [frequency_response, hL, hC]
    · simp [frequency_response, hL, hC, hsq.ne', Real.pi_ne_zero]
    · simp [frequency_response, hL, hC, hsq.ne', Real.pi_ne_zero, hq, hR]
    · simp [run_rlc_resonance]
    · simp [run_rlc_resonance]
    · simp [run_rlc_resonance, hq, hRinv]
  refine ⟨hmain, ?_, ?_⟩
  · intro R L C fs fe pts h
    refine ⟨?_, ?_, ?_⟩ <;> simp [frequency_response, h]
  · have h1 := (hmain 100 (1 / 1000) (1 / 1000000) 1 1000000 100
      (by norm_num) (by norm_num) (by norm_num)).1
    rw [h1, Option.getD_some]
    have harg : ((1 : ℝ) / 1000) * (1 / 1000000) = 1 / 1000000000 := by norm_num
    rw [harg]
    have hπl : (3.141592 : ℝ) < π := Real.pi_gt_d6
    have hπu : π < (3.141593 : ℝ) := Real.pi_lt_d6
    have hslb : (31622776 : ℝ) / 10 ^ 12 < Real.sqrt (1 / 1000000000) := by
      rw [Real.lt_sqrt (by norm_num)]
      norm_num
    have hsub : Real.sqrt ((1 : ℝ) / 1000000000) < 31622777 / 10 ^ 12 := by
      rw [Real.sqrt_lt' (by norm_num)]
      norm_num
    set s := Real.sqrt ((1 : ℝ) / 1000000000) with hsdef
    have hspos : 0 < s := lt_trans (by norm_num) hslb
    have hkey1 : (3.141592 : ℝ) * (31622776 / 10 ^ 12) < π * s :=
      mul_lt_mul'' hπl hslb (by norm_num) (by norm_num)
    have hkey2 : π * s < (3.141593 : ℝ) * (31622777 / 10 ^ 12) :=
      mul_lt_mul'' hπu hsub (le_of_lt Real.pi_pos) (le_of_lt hspos)
    have hden_pos : 0 < 2 * π * s := by positivity
    have hub : 1 / (2 * π * s) < 5033 := by
      have hlow : (1 : ℝ) / 5033 < 2 * π * s := by
        have : (1 : ℝ) / 5033 < 2 * ((3.141592 : ℝ) * (31622776 / 10 ^ 12)) := by norm_num
        linarith
      calc 1 / (2 * π * s) < 1 / (1 / 5033) :=
            one_div_lt_one_div_of_lt (by norm_num) hlow
        _ = 5033 := by norm_num
    have hlb : (5032.8 : ℝ) < 1 / (2 * π * s) := by
      have hhigh : 2 * π * s < (1 : ℝ) / 5032.8 := by
        have : 2 * ((3.141593 : ℝ) * (31622777 / 10 ^ 12)) < (1 : ℝ) / 5032.8 := by norm_num
        linarith
      calc (5032.8 : ℝ) = 1 / (1 / 5032.8) := by norm_num
        _ < 1 / (2 * π * s) := one_div_lt_one_div_of_lt hden_pos hhigh
    rw [abs_lt]
    constructor <;> nlinarith

/-- C8, witness: the resonance-metadata theorem at the concrete inputs
R = L = C = 1 (metadata present with the spec's formulas) and L = 0
(no metadata). -/
theorem frequency_response_resonance_witness :
    (frequency_response 1 1 1 1 10 5).resonant_frequency =
        some (1 / (2 * π * Real.sqrt (1 * 1))) ∧
    (frequency_response 1 0 1 1 10 5).resonant_frequency = none :=
  ⟨(frequency_response_resonance.1 1 1 1 1 10 5 (by norm_num) (by norm_num) (by norm_num)).1,
    (frequency_response_resonance.2.1 1 0 1 1 10 5 (by norm_num)).1⟩

/-! ### C6: `bandwidth_analysis` main theorem -/

lemma le_foldl_max (t : List ℝ) (a : ℝ) : a ≤ t.foldl max a := by
  induction t generalizing a with
  | nil => exact le_refl a
  | cons h tl ih => exact le_trans (le_max_left a h) (ih (max a h))

lemma mem_le_foldl_max (t : List ℝ) : ∀ a x : ℝ, x ∈ t → x ≤ t.foldl max a := by
  induction t with
  | nil =>
    intro a x hx
    exact absurd hx (List.not_mem_nil x)
  | cons h tl ih =>
    intro a x hx
    rw [List.foldl_cons]
    rcases List.mem_cons.mp hx with heq | hmem
    · subst heq
      exact le_trans (le_max_right a x) (le_foldl_max tl _)
    · exact ih _ x hmem

lemma foldl_max_choice (t : List ℝ) : ∀ a : ℝ, t.foldl max a = a ∨ t.foldl max a ∈ t := by
  induction t with
  | nil =>
    intro a
    left
    rfl
  | cons h tl ih =>
    intro a
    rw [List.foldl_cons]
    rcases ih (max a h) with heq | hmem
    · rw [heq]
      rcases max_choice a h with h1 | h1

      · left
        exact h1
      · right
        rw [h1]
        exact List.mem_cons_self h tl
    · right
      exact List.mem_cons_of_mem _ hmem

lemma le_pyMax (l : List ℝ) (x : ℝ) (hx : x ∈ l) : x ≤ pyMax l := by
  cases l with
  | nil => exact absurd hx (List.not_mem_nil x)
  | cons h t =>
    unfold pyMax
    rcases List.mem_cons.mp hx with heq | hmem
    · subst heq
      exact le_foldl_max t x
    · exact mem_le_foldl_max t h x hmem

lemma pyMax_mem (l : List ℝ) (hl : l ≠ []) : pyMax l ∈ l := by
  cases l with
  | nil => exact absurd rfl hl
  | cons h t =>
    show List.foldl max h t ∈ h :: t
    rcases foldl_max_choice t h with heq | hmem
    · rw [heq]
      exact List.mem_cons_self h t
    · exact List.mem_cons_of_mem _ hmem

lemma foldl_max_all_eq (t : List ℝ) (c : ℝ) (h : ∀ y ∈ t, y = c) : t.foldl max c = c := by
  induction t with
  | nil => rfl
  | cons hd tl ih =>
    rw [List.foldl_cons, h hd (List.mem_cons_self hd tl), max_self]
    exact ih (fun y hy => h y (List.mem_cons_of_mem _ hy))

lemma foldl_min_all_eq (t : List ℝ) (c : ℝ) (h : ∀ y ∈ t, y = c) : t.foldl min c = c := by
  induction t with
  | nil => rfl
  | cons hd tl ih =>
    rw [List.foldl_cons, h hd (List.mem_cons_self hd tl), min_self]
    exact ih (fun y hy => h y (List.mem_cons_of_mem _ hy))

lemma pyMax_all_eq (l : List ℝ) (c : ℝ) (hne : l ≠ []) (h : ∀ y ∈ l, y = c) : pyMax l = c := by
  cases l with
  | nil => exact absurd rfl hne
  | cons hd t =>
    unfold pyMax
    rw [h hd (List.mem_cons_self hd t)]
    exact foldl_max_all_eq t c (fun y hy => h y (List.mem_cons_of_mem _ hy))

lemma pyMin_all_eq (l : List ℝ) (c : ℝ) (hne : l ≠ []) (h : ∀ y ∈ l, y = c) : pyMin l = c := by
  cases l with
  | nil => exact absurd rfl hne
  | cons hd t =>
    unfold pyMin
    rw [h hd (List.mem_cons_self hd t)]
    exact foldl_min_all_eq t c (fun y hy => h y (List.mem_cons_of_mem _ hy))

lemma mem_selected_iff (fs ms : List ℝ) (t fr : ℝ) :
    (fr ∈ ((fs.zip ms).filter (fun p => if t ≤ p.2 then true else false)).map Prod.fst) ↔
      ∃ j, j < fs.length ∧ j < ms.length ∧ t ≤ ms.getD j 0 ∧ fs.getD j 0 = fr := by
  constructor
  · intro h
    rcases List.mem_map.mp h with ⟨p, hp, hfst⟩
    rcases List.mem_filter.mp hp with ⟨hpz, hcond⟩
    have hle : t ≤ p.2 := by
      by_contra hc
      rw [if_neg hc] at hcond
      exact Bool.noConfusion hcond
    rcases List.mem_iff_getElem.mp hpz with ⟨j, hjz, hpj⟩
    have hjm : j < min fs.length ms.length := by
      rw [List.length_zip] at hjz
      exact hjz
    have hj1 : j < fs.length := lt_of_lt_of_le hjm (min_le_left _ _)
    have hj2 : j < ms.length := lt_of_lt_of_le hjm (min_le_right _ _)
    have hzip : (fs.zip ms)[j] = (fs[j], ms[j]) := List.getElem_zip
    rw [hzip] at hpj
    refine ⟨j, hj1, hj2, ?_, ?_⟩
    · rw [List.getD_eq_getElem ms 0 hj2]
      rw [← hpj] at hle
      simpa using hle
    · rw [List.getD_eq_getElem fs 0 hj1]
      rw [← hpj] at hfst
      simpa using hfst
  · rintro ⟨j, hj1, hj2, hle, hfr⟩
    apply List.mem_map.mpr
    refine ⟨(fs[j], ms[j]), ?_, ?_⟩
    · apply List.mem_filter.mpr
      constructor
      · have hjz : j < (fs.zip ms).length := by
          rw [List.length_zip]
          exact lt_min hj1 hj2
        have hzip : (fs.zip ms)[j] = (fs[j], ms[j]) := List.getElem_zip
        rw [← hzip]
        exact List.getElem_mem _
      · rw [List.getD_eq_getElem ms 0 hj2] at hle
        simp [hle]
    · rw [List.getD_eq_getElem fs 0 hj1] at hfr
      exact hfr

/-- C6, amended: for every signal of length ≥ 4 (shorter signals make the
inner `compute_fft` raise) and sample rate > 0, `bandwidth_analysis` returns
a result whose selection is exactly the bins with dB magnitude at or above
`max + threshold_db`; lower/upper frequency are the min/max selected bin
frequency regardless of contiguity, bandwidth their difference; all four
outputs are 0 when no bin qualifies; and at threshold 0 dB with a unique
peak bin, lower equals upper and the bandwidth is 0. -/
theorem bandwidth_analysis_selection (x : List ℝ) (sr thr : ℝ) (hsr : 0 < sr)
    (hlen : 4 ≤ x.length) :
    ∃ fft, compute_fft x sr = some fft ∧
      ∃ b, bandwidth_analysis x sr thr = some b ∧
        (let sel := ((fft.frequencies.zip fft.magnitude_db).filter
            (fun p => if pyMax fft.magnitude_db + thr ≤ p.2 then true else false)).map Prod.fst
         (∀ fr, fr ∈ sel ↔ ∃ j, j < fft.frequencies.length ∧ j < fft.magnitude_db.length ∧
             pyMax fft.magnitude_db + thr ≤ fft.magnitude_db.getD j 0 ∧
             fft.frequencies.getD j 0 = fr) ∧
         (sel ≠ [] → b.lower_frequency = pyMin sel ∧ b.upper_frequency = pyMax sel ∧
             b.bandwidth = pyMax sel - pyMin sel ∧
             b.center_frequency = (pyMax sel + pyMin sel) / 2) ∧
         (sel = [] → b.lower_frequency = 0 ∧ b.upper_frequency = 0 ∧ b.bandwidth = 0 ∧
             b.center_frequency = 0) ∧
         (thr = 0 →
           (∀ j k, j < fft.magnitude_db.length → k < fft.magnitude_db.length →
               fft.magnitude_db.getD j 0 = pyMax fft.magnitude_db →
               fft.magnitude_db.getD k 0 = pyMax fft.magnitude_db → j = k) →
           b.lower_frequency = b.upper_frequency ∧ b.bandwidth = 0)) := by
  have hnh : ¬(x.length / 2 ≤ 1) := by omega
  obtain ⟨fft, hfft⟩ : ∃ f, compute_fft x sr = some f := by
    simp only [compute_fft]
    rw [if_neg hnh]
    exact ⟨_, rfl⟩
  have hlens : fft.frequencies.length = x.length / 2 ∧
      fft.magnitude_db.length = x.length / 2 := by
    have h2 := hfft
    simp only [compute_fft] at h2
    rw [if_neg hnh] at h2
    have h3 := Option.some.inj h2
    constructor
    · rw [← h3]
      simp
    · rw [← h3]
      simp
  refine ⟨fft, hfft, ?_⟩
  unfold bandwidth_analysis
  rw [hfft, Option.map_some']
  refine ⟨_, rfl, ?_⟩
  intro sel
  have hBne : sel ≠ [] → (pyMin sel, pyMax sel, pyMax sel - pyMin sel,
        (pyMax sel + pyMin sel) / 2).1 = pyMin sel := fun _ => rfl
  constructor
  · intro fr
    exact mem_selected_iff fft.frequencies fft.magnitude_db (pyMax fft.magnitude_db + thr) fr
  refine ⟨?_, ?_, ?_⟩
  · intro hsel
    show (if sel = [] then ((0 : ℝ), (0 : ℝ), (0 : ℝ), (0 : ℝ)) else
        (pyMin sel, pyMax sel, pyMax sel - pyMin sel, (pyMax sel + pyMin sel) / 2)).1
          = pyMin sel ∧
      (if sel = [] then ((0 : ℝ), (0 : ℝ), (0 : ℝ), (0 : ℝ)) else
        (pyMin sel, pyMax sel, pyMax sel - pyMin sel, (pyMax sel + pyMin sel) / 2)).2.1
          = pyMax sel ∧
      (if sel = [] then ((0 : ℝ), (0 : ℝ), (0 : ℝ), (0 : ℝ)) else
        (pyMin sel, pyMax sel, pyMax sel - pyMin sel, (pyMax sel + pyMin sel) / 2)).2.2.1
          = pyMax sel - pyMin sel ∧
      (if sel = [] then ((0 : ℝ), (0 : ℝ), (0 : ℝ), (0 : ℝ)) else
        (pyMin sel, pyMax sel, pyMax sel - pyMin sel, (pyMax sel + pyMin sel) / 2)).2.2.2
          = (pyMax sel + pyMin sel) / 2
    rw [if_neg hsel]
    exact ⟨rfl, rfl, rfl, rfl⟩
  · intro hsel
    show (if sel = [] then ((0 : ℝ), (0 : ℝ), (0 : ℝ), (0 : ℝ)) else
        (pyMin sel, pyMax sel, pyMax sel - pyMin sel, (pyMax sel + pyMin sel) / 2)).1
          = 0 ∧
      (if sel = [] then ((0 : ℝ), (0 : ℝ), (0 : ℝ), (0 : ℝ)) else
        (pyMin sel, pyMax sel, pyMax sel - pyMin sel, (pyMax sel + pyMin sel) / 2)).2.1
          = 0 ∧
      (if sel = [] then ((0 : ℝ), (0 : ℝ), (0 : ℝ), (0 : ℝ)) else
        (pyMin sel, pyMax sel, pyMax sel - pyMin sel, (pyMax sel + pyMin sel) / 2)).2.2.1
          = 0 ∧
      (if sel = [] then ((0 : ℝ), (0 : ℝ), (0 : ℝ), (0 : ℝ)) else
        (pyMin sel, pyMax sel, pyMax sel - pyMin sel, (pyMax sel + pyMin sel) / 2)).2.2.2
          = 0
    rw [if_pos hsel]
    exact ⟨rfl, rfl, rfl, rfl⟩
  · intro hthr huniq
    subst hthr
    have hmagne : fft.magnitude_db ≠ [] := by
      intro hc
      have := hlens.2
      rw [hc] at this
      simp at this
      omega
    have hmem := pyMax_mem fft.magnitude_db hmagne
    rcases List.mem_iff_getElem.mp hmem with ⟨k, hk, hgk⟩
    have hkD : fft.magnitude_db.getD k 0 = pyMax fft.magnitude_db := by
      rw [List.getD_eq_getElem _ 0 hk]
      exact hgk
    have hkf : k < fft.frequencies.length := by
      rw [hlens.1]
      rw [hlens.2] at hk
      exact hk
    have hmem_sel : fft.frequencies.getD k 0 ∈ sel := by
      apply (mem_selected_iff fft.frequencies fft.magnitude_db _ _).mpr
      exact ⟨k, hkf, hk, by rw [hkD, add_zero], rfl⟩
    have hall : ∀ fr ∈ sel, fr = fft.frequencies.getD k 0 := by
      intro fr hfr
      rcases (mem_selected_iff fft.frequencies fft.magnitude_db _ _).mp hfr with
        ⟨j, hjf, hjm, hle, hfr_eq⟩
      have hjle : fft.magnitude_db.getD j 0 ≤ pyMax fft.magnitude_db := by
        rw [List.getD_eq_getElem _ 0 hjm]
        exact le_pyMax _ _ (List.getElem_mem _)
      have hjeq : fft.magnitude_db.getD j 0 = pyMax fft.magnitude_db := by
        rw [add_zero] at hle
        exact le_antisymm hjle hle
      have hjk := huniq j k hjm hk hjeq hkD
      rw [← hfr_eq, hjk]
    have hselne : sel ≠ [] := by
      intro hc
      rw [hc] at hmem_sel
      exact List.not_mem_nil _ hmem_sel
    have hmin := pyMin_all_eq sel _ hselne hall
    have hmax := pyMax_all_eq sel _ hselne hall
    constructor
    · show (if sel = [] then ((0 : ℝ), (0 : ℝ), (0 : ℝ), (0 : ℝ)) else
          (pyMin sel, pyMax sel, pyMax sel - pyMin sel, (pyMax sel + pyMin sel) / 2)).1 =
        (if sel = [] then ((0 : ℝ), (0 : ℝ), (0 : ℝ), (0 : ℝ)) else
          (pyMin sel, pyMax sel, pyMax sel - pyMin sel, (pyMax sel + pyMin sel) / 2)).2.1
      rw [if_neg hselne]
      show pyMin sel = pyMax sel
      rw [hmin, hmax]
    · show (if sel = [] then ((0 : ℝ), (0 : ℝ), (0 : ℝ), (0 : ℝ)) else
          (pyMin sel, pyMax sel, pyMax sel - pyMin sel, (pyMax sel + pyMin sel) / 2)).2.2.1 = 0
      rw [if_neg hselne]
      show pyMax sel - pyMin sel = 0
      rw [hmin, hmax]
      ring

/-- C6, witness: the amended bandwidth-selection theorem at a concrete
four-sample signal and sample rate 8 Hz. -/
theorem bandwidth_analysis_selection_witness :
    ∃ fft, compute_fft [1, 0, 0, 0] 8 = some fft ∧
      ∃ b, bandwidth_analysis [1, 0, 0, 0] 8 (-3) = some b ∧
        (let sel := ((fft.frequencies.zip fft.magnitude_db).filter
            (fun p => if pyMax fft.magnitude_db + (-3) ≤ p.2 then true else false)).map Prod.fst
         (∀ fr, fr ∈ sel ↔ ∃ j, j < fft.frequencies.length ∧ j < fft.magnitude_db.length ∧
             pyMax fft.magnitude_db + (-3) ≤ fft.magnitude_db.getD j 0 ∧
             fft.frequencies.getD j 0 = fr) ∧
         (sel ≠ [] → b.lower_frequency = pyMin sel ∧ b.upper_frequency = pyMax sel ∧
             b.bandwidth = pyMax sel - pyMin sel ∧
             b.center_frequency = (pyMax sel + pyMin sel) / 2) ∧
         (sel = [] → b.lower_frequency = 0 ∧ b.upper_frequency = 0 ∧ b.bandwidth = 0 ∧
             b.center_frequency = 0) ∧
         ((-3 : ℝ) = 0 →
           (∀ j k, j < fft.magnitude_db.length → k < fft.magnitude_db.length →
               fft.magnitude_db.getD j 0 = pyMax fft.magnitude_db →
               fft.magnitude_db.getD k 0 = pyMax fft.magnitude_db → j = k) →
           b.lower_frequency = b.upper_frequency ∧ b.bandwidth = 0)) :=
  bandwidth_analysis_selection [1, 0, 0, 0] 8 (-3) (by norm_num) (by simp)

end

